import Mathlib

/-!
Verification of the real-time mixing core of hyprsonic (src/hyprsonic.py).

The embedding models the mixer state and the two operations the spec calls
spawn (`enqueue_sound`) and produce (one resumption of `mixer_generator`):

* a decoded sound (the dict returned by `load_sound`) is a `Sound`;
* an entry of `active_sounds` (the dict appended by `enqueue_sound`) is a
  `Voice` with fields `samples`, `pos`, `vol`, `nframes`;
* one iteration of the generator's `while True` body — accumulate every
  active sound into `acc`, advance cursors, drop finished sounds, clip to
  int16 — is the function `produce`.

Samples are integers (the values of an `array` of 16-bit ints); the gain
`vol` is modelled as an exact rational.  Python's `int(x)` truncates toward
zero, so `int(sample * vol)` for `vol = num/den` is the toward-zero integer
division of `sample * num` by `den` (`pyScale`).
-/

/-- OUT_CHANNELS = 2 from the configuration block. -/
def OUT_CHANNELS : Nat := 2

/-- OUT_SAMPLE_RATE = 48000 from the configuration block. -/
def OUT_SAMPLE_RATE : Nat := 48000

/-- `max_amp = 32767` in `mixer_generator`. -/
def max_amp : Int := 32767

/-- `min_amp = -32768` in `mixer_generator`. -/
def min_amp : Int := -32768

/-- The dict returned by `load_sound`: interleaved samples plus the frame
count `nframes = len(samples) // OUT_CHANNELS` (`nchannels` and
`sample_rate` are the process-wide constants and are omitted). -/
structure Sound where
  samples : List Int
  nframes : Nat
deriving DecidableEq

/-- The dict `enqueue_sound` appends to `active_sounds`: a reference to the
sample buffer, a cursor `pos` counted in interleaved samples, the gain
`vol`, and the copied `nframes`. -/
structure Voice where
  samples : List Int
  pos : Nat
  vol : ℚ
  nframes : Nat
deriving DecidableEq

/-- `enqueue_sound(dsf, volume)`: append a new entry with `pos = 0` and
`vol = float(volume)` to `active_sounds`.  No validation of `volume` is
performed by the source. -/
def enqueue_sound (active_sounds : List Voice) (dsf : Sound) (volume : ℚ) : List Voice :=
  active_sounds ++ [{ samples := dsf.samples, pos := 0, vol := volume, nframes := dsf.nframes }]

/-- `int(s * g)` from the mixing loop: Python `int()` truncates toward
zero, so for the exact rational gain `g = g.num / g.den` (with `g.den > 0`)
this is the toward-zero division of `s * g.num` by `g.den`. -/
def pyScale (s : Int) (g : ℚ) : Int := Int.tdiv (s * g.num) (g.den : Int)

/-- `want = required_frames * channels`: the number of interleaved samples
requested from each sound. -/
def wantCount (required_frames : Nat) : Nat := required_frames * OUT_CHANNELS

/-- `available = len(samples) - pos` (the cursor never passes the end, so
natural subtraction agrees with the source). -/
def availCount (v : Voice) : Nat := v.samples.length - v.pos

/-- `take = want if available >= want else available`. -/
def takeCount (required_frames : Nat) (v : Voice) : Nat :=
  if availCount v ≥ wantCount required_frames then wantCount required_frames else availCount v

/-- The amount `acc[i] += int(chunk[i] * vol)` adds at accumulation offset
`i`: the scaled sample `chunk[i] = samples[pos + i]` for `i < take`, and
nothing (the loop `for i in range(take)` stops at `take`) otherwise. -/
def contrib (required_frames : Nat) (v : Voice) (i : Nat) : Int :=
  if i < takeCount required_frames v then pyScale (v.samples.getD (v.pos + i) 0) v.vol else 0

/-- The inner loop `for i in range(take): acc[i] += int(chunk[i] * vol)`,
walking the accumulation buffer from offset `i`; offsets at or past `take`
receive `contrib = 0`, i.e. are left unchanged, exactly as in the source
where the loop stops at `take ≤ len(acc)`. -/
def addChunk (required_frames : Nat) (v : Voice) : Nat → List Int → List Int
  | _, [] => []
  | i, a :: rest => (a + contrib required_frames v i) :: addChunk required_frames v (i + 1) rest

/-- The guarded mixing body `if take > 0: ... acc[i] += ...` for one sound. -/
def mixVoiceAcc (required_frames : Nat) (v : Voice) (acc : List Int) : List Int :=
  if takeCount required_frames v > 0 then addChunk required_frames v 0 acc else acc

/-- The cursor update `if take > 0: s["pos"] += take`. -/
def stepVoice (required_frames : Nat) (v : Voice) : Voice :=
  if takeCount required_frames v > 0 then
    { v with pos := v.pos + takeCount required_frames v }
  else v

/-- The loop `for s in active_sounds` inside the lock: mix each sound into
the accumulation buffer and advance its cursor; returns the final buffer
and the updated sounds (removal happens afterwards). -/
def mixLoop (required_frames : Nat) : List Voice → List Int → List Int × List Voice
  | [], acc => (acc, [])
  | v :: rest, acc =>
    let out := mixLoop required_frames rest (mixVoiceAcc required_frames v acc)
    (out.1, stepVoice required_frames v :: out.2)

/-- The clipping step: `if v > max_amp: v = max_amp elif v < min_amp:
v = min_amp`. -/
def clip16 (x : Int) : Int := if x > max_amp then max_amp else if x < min_amp then min_amp else x

/-- A sound stays in `active_sounds` iff `s["pos"] >= len(s["samples"])` is
false after the pass (those for which it holds are put on `remove_list` and
removed). -/
def voiceAlive (v : Voice) : Bool := decide (v.pos < v.samples.length)

/-- One resumption of the generator body: build `acc` of
`required_frames * channels` zeros, mix every active sound, remove the
finished ones, clip to int16.  Returns the output buffer and the new
`active_sounds`. -/
def produce (required_frames : Nat) (active_sounds : List Voice) : List Int × List Voice :=
  ((mixLoop required_frames active_sounds (List.replicate (wantCount required_frames) 0)).1.map
      clip16,
    (mixLoop required_frames active_sounds
        (List.replicate (wantCount required_frames) 0)).2.filter voiceAlive)

/-- An external stimulus: the dispatcher thread calling `enqueue_sound`, or
the playback device requesting frames from the generator. -/
inductive Event where
  | spawn (dsf : Sound) (volume : ℚ)
  | produceReq (required_frames : Nat)

/-- Effect of one event on `active_sounds`. -/
def stepEvent (active : List Voice) : Event → List Voice
  | Event.spawn dsf volume => enqueue_sound active dsf volume
  | Event.produceReq rf => (produce rf active).2

/-- The registry reached from the initial `active_sounds = []` after a
sequence of spawn and produce events. -/
def runEvents (evs : List Event) : List Voice := List.foldl stepEvent [] evs

/-- The total value accumulated at buffer offset `i` by a pass over the
given sounds: the sum of every sound's contribution at `i`. -/
def accValue (required_frames : Nat) (active : List Voice) (i : Nat) : Int :=
  (active.map fun v => contrib required_frames v i).sum

/-- The 10-frame stereo asset of the spec's partial-final-buffer scenario:
20 interleaved samples. -/
def asset10 : Sound :=
  ⟨[1, 2, 3, 4, 5, 6, 7, 8, 9, 10, 11, 12, 13, 14, 15, 16, 17, 18, 19, 20], 10⟩

theorem clip16_zero : clip16 0 = 0 := by decide

theorem takeCount_le_want (rf : Nat) (v : Voice) : takeCount rf v ≤ wantCount rf := by
  unfold takeCount
  split <;> omega

theorem takeCount_le_avail (rf : Nat) (v : Voice) : takeCount rf v ≤ availCount v := by
  unfold takeCount
  split <;> omega

theorem takeCount_zero (v : Voice) : takeCount 0 v = 0 := by
  have h : wantCount 0 = 0 := rfl
  unfold takeCount
  rw [h]
  split <;> omega

theorem contrib_of_take_le (rf : Nat) (v : Voice) (i : Nat) (h : takeCount rf v ≤ i) :
    contrib rf v i = 0 := by
  unfold contrib
  rw [if_neg]
  omega

theorem addChunk_length (rf : Nat) (v : Voice) (i : Nat) (acc : List Int) :
    (addChunk rf v i acc).length = acc.length := by
  induction acc generalizing i with
  | nil => rfl
  | cons a rest ih => simp [addChunk, ih]

theorem addChunk_getD (rf : Nat) (v : Voice) (acc : List Int) (i j : Nat)
    (h : j < acc.length) :
    (addChunk rf v i acc).getD j 0 = acc.getD j 0 + contrib rf v (i + j) := by
  induction acc generalizing i j with
  | nil => simp at h
  | cons a rest ih =>
    cases j with
    | zero => simp [addChunk]
    | succ j =>
      have hj : j < rest.length := by simpa using h
      have hidx : i + 1 + j = i + (j + 1) := by omega
      simp only [addChunk, List.getD_cons_succ]
      rw [ih (i + 1) j hj, hidx]

theorem mixVoiceAcc_eq_addChunk (rf : Nat) (v : Voice) (acc : List Int) :
    mixVoiceAcc rf v acc = addChunk rf v 0 acc := by
  unfold mixVoiceAcc
  split
  · rfl
  · rename_i h
    have h0 : takeCount rf v = 0 := by omega
    clear h
    induction acc generalizing h0 with
    | nil => rfl
    | cons a rest ih =>
      rw [addChunk, contrib_of_take_le rf v 0 (by omega)]
      rw [show addChunk rf v (0 + 1) rest = addChunk rf v 0 rest from ?_]
      · rw [← ih h0, add_zero]
      · clear ih
        have key : ∀ (m : Nat) (l : List Int), addChunk rf v m l = l := by
          intro m l
          induction l generalizing m with
          | nil => rfl
          | cons b bs ihb =>
            rw [addChunk, contrib_of_take_le rf v m (by omega), add_zero, ihb]
        rw [key, key]

theorem stepVoice_eq (rf : Nat) (v : Voice) :
    stepVoice rf v = { v with pos := v.pos + takeCount rf v } := by
  unfold stepVoice
  split
  · rfl
  · rename_i h
    have h0 : takeCount rf v = 0 := by omega
    rw [h0]
    rfl

theorem stepVoice_pos (rf : Nat) (v : Voice) :
    (stepVoice rf v).pos = v.pos + takeCount rf v := by
  rw [stepVoice_eq]

theorem stepVoice_samples (rf : Nat) (v : Voice) : (stepVoice rf v).samples = v.samples := by
  rw [stepVoice_eq]

theorem mixLoop_eq (rf : Nat) (l : List Voice) (acc : List Int) :
    mixLoop rf l acc =
      (l.foldl (fun a v => mixVoiceAcc rf v a) acc, l.map (stepVoice rf)) := by
  induction l generalizing acc with
  | nil => rfl
  | cons v rest ih => simp [mixLoop, ih]

theorem foldl_mix_length (rf : Nat) (l : List Voice) (acc : List Int) :
    (l.foldl (fun a v => mixVoiceAcc rf v a) acc).length = acc.length := by
  induction l generalizing acc with
  | nil => rfl
  | cons v rest ih =>
    rw [List.foldl_cons, ih, mixVoiceAcc_eq_addChunk, addChunk_length]

theorem accValue_cons (rf : Nat) (v : Voice) (l : List Voice) (i : Nat) :
    accValue rf (v :: l) i = contrib rf v i + accValue rf l i := by
  simp [accValue]

theorem foldl_mix_getD (rf : Nat) (l : List Voice) (acc : List Int) (j : Nat)
    (h : j < acc.length) :
    (l.foldl (fun a v => mixVoiceAcc rf v a) acc).getD j 0 =
      acc.getD j 0 + accValue rf l j := by
  induction l generalizing acc with
  | nil => simp [accValue]
  | cons v rest ih =>
    rw [List.foldl_cons,
      ih (mixVoiceAcc rf v acc)
        (by rw [mixVoiceAcc_eq_addChunk, addChunk_length]; exact h),
      mixVoiceAcc_eq_addChunk, addChunk_getD rf v acc 0 j h, accValue_cons,
      Nat.zero_add, add_assoc]

theorem replicate_getD (n j : Nat) : (List.replicate n (0 : Int)).getD j 0 = 0 := by
  induction n generalizing j with
  | zero => rfl
  | succ n ih =>
    cases j with
    | zero => rfl
    | succ j =>
      rw [List.replicate, List.getD_cons_succ]
      exact ih j

theorem map_clip16_getD (l : List Int) (i : Nat) :
    (l.map clip16).getD i 0 = clip16 (l.getD i 0) := by
  induction l generalizing i with
  | nil => simp [clip16_zero]
  | cons a rest ih =>
    cases i with
    | zero => rfl
    | succ i => simpa using ih i

theorem accValue_of_want_le (rf : Nat) (l : List Voice) (i : Nat) (h : wantCount rf ≤ i) :
    accValue rf l i = 0 := by
  apply List.sum_eq_zero
  intro x hx
  obtain ⟨v, _, rfl⟩ := List.mem_map.mp hx
  exact contrib_of_take_le rf v i (le_trans (takeCount_le_want rf v) h)

theorem produce_fst_length (rf : Nat) (l : List Voice) :
    (produce rf l).1.length = wantCount rf := by
  unfold produce
  rw [mixLoop_eq]
  simp [foldl_mix_length]

theorem produce_fst_getD (rf : Nat) (l : List Voice) (i : Nat) :
    (produce rf l).1.getD i 0 = clip16 (accValue rf l i) := by
  by_cases h : i < wantCount rf
  · unfold produce
    rw [mixLoop_eq]
    simp only [map_clip16_getD]
    rw [foldl_mix_getD rf l _ i (by simpa using h), replicate_getD, zero_add]
  · rw [List.getD_eq_default _ _ (by rw [produce_fst_length]; omega),
      accValue_of_want_le rf l i (by omega), clip16_zero]

theorem produce_snd (rf : Nat) (l : List Voice) :
    (produce rf l).2 = (l.map (stepVoice rf)).filter voiceAlive := by
  unfold produce
  rw [mixLoop_eq]

/-- The cursor stays between 0 and the sample count (the spec's Voice
invariant; the lower bound is inherent in `pos : Nat`). -/
def cursorInv (v : Voice) : Prop := v.pos ≤ v.samples.length

theorem stepVoice_cursorInv (rf : Nat) (v : Voice) (h : cursorInv v) :
    cursorInv (stepVoice rf v) := by
  unfold cursorInv at h ⊢
  rw [stepVoice_eq]
  show v.pos + takeCount rf v ≤ v.samples.length
  have ha := takeCount_le_avail rf v
  unfold availCount at ha
  omega

theorem produce_cursorInv (rf : Nat) (l : List Voice) (h : ∀ v ∈ l, cursorInv v) :
    ∀ v ∈ (produce rf l).2, cursorInv v := by
  rw [produce_snd]
  intro v hv
  obtain ⟨u, hu, rfl⟩ := List.mem_map.mp (List.mem_filter.mp hv).1
  exact stepVoice_cursorInv rf u (h u hu)

theorem enqueue_cursorInv (l : List Voice) (dsf : Sound) (g : ℚ)
    (h : ∀ v ∈ l, cursorInv v) : ∀ v ∈ enqueue_sound l dsf g, cursorInv v := by
  intro v hv
  rcases List.mem_append.mp hv with hv | hv
  · exact h v hv
  · rw [List.mem_singleton.mp hv]
    exact Nat.zero_le _

theorem foldl_events_cursorInv (evs : List Event) (active : List Voice)
    (h : ∀ v ∈ active, cursorInv v) :
    ∀ v ∈ List.foldl stepEvent active evs, cursorInv v := by
  induction evs generalizing active with
  | nil => exact h
  | cons e rest ih =>
    rw [List.foldl_cons]
    apply ih
    cases e with
    | spawn dsf g => exact enqueue_cursorInv active dsf g h
    | produceReq rf => exact produce_cursorInv rf active h

theorem runEvents_cursorInv (evs : List Event) : ∀ v ∈ runEvents evs, cursorInv v := by
  unfold runEvents
  exact foldl_events_cursorInv evs [] (by intro v hv; simp at hv)

theorem produce_perm_fst (rf : Nat) {l₁ l₂ : List Voice} (h : List.Perm l₁ l₂) :
    (produce rf l₁).1 = (produce rf l₂).1 := by
  apply List.ext_getElem (by rw [produce_fst_length, produce_fst_length])
  intro i h₁ h₂
  rw [← List.getD_eq_getElem _ 0 h₁, ← List.getD_eq_getElem _ 0 h₂, produce_fst_getD,
    produce_fst_getD]
  unfold accValue
  exact congrArg clip16 (List.Perm.sum_eq (List.Perm.map _ h))

theorem produce_perm_snd (rf : Nat) {l₁ l₂ : List Voice} (h : List.Perm l₁ l₂) :
    List.Perm (produce rf l₁).2 (produce rf l₂).2 := by
  rw [produce_snd, produce_snd]
  exact List.Perm.filter voiceAlive (List.Perm.map (stepVoice rf) h)

theorem takeCount_empty (rf : Nat) (g : ℚ) (nfr : Nat) :
    takeCount rf ({ samples := [], pos := 0, vol := g, nframes := nfr } : Voice) = 0 := by
  have ha : availCount ({ samples := [], pos := 0, vol := g, nframes := nfr } : Voice) = 0 :=
    rfl
  unfold takeCount
  rw [ha]
  split <;> omega

/-- Claim C1: along every sequence of spawn (`enqueue_sound`) and produce
(generator) events starting from the empty registry, each live Voice's
cursor satisfies `0 ≤ pos ≤ len(samples)` (the lower bound is inherent in
`pos : Nat`); moreover each produce pass advances a cursor by exactly
`take`, and `take` never exceeds the remaining `len(samples) - pos`, so the
total number of samples a Voice ever feeds into the mix — which is exactly
its cursor, since the cursor starts at 0 and grows by the mixed amount —
never exceeds its asset's sample count. -/
theorem C1_cursor_and_emission_bound :
    (∀ (evs : List Event), ∀ v ∈ runEvents evs, v.pos ≤ v.samples.length) ∧
    (∀ (rf : Nat) (v : Voice), v.pos ≤ v.samples.length →
      (stepVoice rf v).pos = v.pos + takeCount rf v ∧
      takeCount rf v ≤ v.samples.length - v.pos ∧
      (stepVoice rf v).pos ≤ (stepVoice rf v).samples.length) := by
  constructor
  · intro evs v hv
    exact runEvents_cursorInv evs v hv
  · intro rf v h
    refine ⟨stepVoice_pos rf v, ?_, ?_⟩
    · have := takeCount_le_avail rf v
      unfold availCount at this
      omega
    · exact stepVoice_cursorInv rf v h

/-- Witness for C1 at a concrete trace: spawning a 4-sample sound and
producing one stereo frame leaves one voice with cursor 2 ≤ 4, and a step
of a fresh voice advances its cursor by exactly its take. -/
theorem C1_cursor_and_emission_bound_witness :
    ((⟨[5, 6, 7, 8], 2, 1, 2⟩ : Voice) ∈
        runEvents [Event.spawn ⟨[5, 6, 7, 8], 2⟩ 1, Event.produceReq 1] ∧
      (⟨[5, 6, 7, 8], 2, 1, 2⟩ : Voice).pos ≤
        (⟨[5, 6, 7, 8], 2, 1, 2⟩ : Voice).samples.length) ∧
    ((⟨[5, 6], 0, 1, 1⟩ : Voice).pos ≤ (⟨[5, 6], 0, 1, 1⟩ : Voice).samples.length ∧
      (stepVoice 1 ⟨[5, 6], 0, 1, 1⟩).pos =
        (⟨[5, 6], 0, 1, 1⟩ : Voice).pos + takeCount 1 ⟨[5, 6], 0, 1, 1⟩) :=
  ⟨⟨by decide,
      C1_cursor_and_emission_bound.1 [Event.spawn ⟨[5, 6, 7, 8], 2⟩ 1, Event.produceReq 1] _
        (by decide)⟩,
    ⟨by decide, (C1_cursor_and_emission_bound.2 1 ⟨[5, 6], 0, 1, 1⟩ (by decide)).1⟩⟩

/-- Claim C2: every output sample is the accumulated wide-integer sum for
its position clamped to [-32768, 32767] (clamping saturates: the result
always lies in the range, and values already in range pass through, never
wrap); mixing three overlapping constant-32000 voices at gain 1 with
requested_frames = 4 gives a buffer of eight interleaved samples all equal
to 32767. -/
theorem C2_output_is_clipped_sum :
    (∀ (rf : Nat) (l : List Voice) (i : Nat),
      (produce rf l).1.getD i 0 = clip16 (accValue rf l i)) ∧
    (∀ x : Int, min_amp ≤ clip16 x ∧ clip16 x ≤ max_amp) ∧
    (produce 4 [⟨List.replicate 8 32000, 0, 1, 4⟩, ⟨List.replicate 8 32000, 0, 1, 4⟩,
        ⟨List.replicate 8 32000, 0, 1, 4⟩]).1 = List.replicate 8 32767 := by
  refine ⟨produce_fst_getD, ?_, by decide⟩
  intro x
  unfold clip16 max_amp min_amp
  split_ifs <;> omega

/-- Claim C4: when every cursor respects the Voice invariant, a produce
pass keeps exactly the stepped voices whose cursor differs from their
asset's sample count — i.e. a Voice is removed exactly when its cursor
equals `len(asset.samples)`, never before (removal happens in the same pass
that exhausts the voice, so the following pass no longer includes it); and
a Voice spawned on a zero-sample asset changes neither the output nor the
surviving registry of the next pass — it is dropped without contributing. -/
theorem C4_removal_exactly_at_end :
    (∀ (rf : Nat) (l : List Voice), (∀ v ∈ l, v.pos ≤ v.samples.length) →
      (produce rf l).2 =
        (l.map (stepVoice rf)).filter fun v => decide (v.pos ≠ v.samples.length)) ∧
    (∀ (rf : Nat) (l : List Voice) (g : ℚ) (nfr : Nat),
      produce rf (enqueue_sound l ⟨[], nfr⟩ g) = produce rf l) := by
  constructor
  · intro rf l h
    rw [produce_snd]
    apply List.filter_congr
    intro v hv
    obtain ⟨u, hu, rfl⟩ := List.mem_map.mp hv
    have hinv : (stepVoice rf u).pos ≤ (stepVoice rf u).samples.length :=
      stepVoice_cursorInv rf u (h u hu)
    unfold voiceAlive
    rw [decide_eq_decide]
    omega
  · intro rf l g nfr
    have htake : takeCount rf ({ samples := [], pos := 0, vol := g, nframes := nfr } :
        Voice) = 0 := takeCount_empty rf g nfr
    have hmix : mixVoiceAcc rf { samples := [], pos := 0, vol := g, nframes := nfr } =
        fun acc => acc := by
      funext acc
      unfold mixVoiceAcc
      rw [htake]
      rfl
    have hstep : stepVoice rf { samples := [], pos := 0, vol := g, nframes := nfr } =
        { samples := [], pos := 0, vol := g, nframes := nfr } := by
      unfold stepVoice
      rw [htake]
      rfl
    unfold produce enqueue_sound
    rw [mixLoop_eq, mixLoop_eq]
    simp only [List.foldl_append, List.foldl_cons, List.foldl_nil, List.map_append,
      List.map_cons, List.map_nil, List.filter_append, hmix, hstep]
    have hdead : List.filter voiceAlive
        [({ samples := [], pos := 0, vol := g, nframes := nfr } : Voice)] = [] := rfl
    rw [hdead, List.append_nil]

/-- Witness for C4: one voice over a single sample, requested_frames 1; the
pass exhausts it (cursor 1 = sample count 1) and the surviving registry
equals the filtered stepped list — here empty. -/
theorem C4_removal_exactly_at_end_witness :
    (∀ v ∈ [(⟨[9], 0, 1, 0⟩ : Voice)], v.pos ≤ v.samples.length) ∧
    (produce 1 [(⟨[9], 0, 1, 0⟩ : Voice)]).2 =
      (([(⟨[9], 0, 1, 0⟩ : Voice)]).map (stepVoice 1)).filter
        fun v => decide (v.pos ≠ v.samples.length) :=
  ⟨by decide, C4_removal_exactly_at_end.1 1 [⟨[9], 0, 1, 0⟩] (by decide)⟩

/-- Claim C5 counterexample: the code adds `int(sample * gain)` — Python
truncation toward zero — not round-to-nearest.  With one voice over the
single sample 3 at gain 1/2 and requested_frames 1, the produced buffer is
[1, 0]: the value added at offset 0 is 1, while round-to-nearest of
3 * (1/2) = 1.5 is 2. -/
theorem C5_trunc_not_round_counterexample :
    (produce 1 [(⟨[3], 0, mkRat 1 2, 0⟩ : Voice)]).1 = [1, 0] ∧
    round ((3 : ℚ) * mkRat 1 2) = 2 ∧ (1 : Int) ≠ 2 := by
  refine ⟨by decide, ?_, by decide⟩
  have h : (mkRat 1 2 : ℚ) = 1 / 2 := by
    rw [Rat.mkRat_eq_divInt, Rat.divInt_eq_div]
    norm_num
  rw [h]
  norm_num [round_eq]

/-- Claim C5 amended: during a produce pass each live Voice contributes, at
every buffer offset `i` below its `take = min(requested_frames * channels,
available)`, the truncation toward zero of `sample * gain` (Python
`int(sample * vol)`, equal to the toward-zero division of
`sample * gain.num` by `gain.den`) — not round-to-nearest — and its cursor
then advances by exactly `take`. -/
theorem C5_truncating_accumulation_and_cursor_advance :
    (∀ (rf : Nat) (l : List Voice) (i : Nat),
      (produce rf l).1.getD i 0 =
        clip16 ((l.map fun v =>
          if i < takeCount rf v then
            Int.tdiv (v.samples.getD (v.pos + i) 0 * v.vol.num) (v.vol.den : Int)
          else 0).sum)) ∧
    (∀ (rf : Nat) (l : List Voice),
      (mixLoop rf l (List.replicate (wantCount rf) 0)).2 = l.map (stepVoice rf)) ∧
    (∀ (rf : Nat) (v : Voice), (stepVoice rf v).pos = v.pos + takeCount rf v) := by
  refine ⟨?_, ?_, stepVoice_pos⟩
  · intro rf l i
    rw [produce_fst_getD]
    unfold accValue contrib pyScale
    rfl
  · intro rf l
    rw [mixLoop_eq]

/-- Claim C6: mixing is order-independent — permuting the registry before a
produce pass yields the identical output buffer, and the surviving
registries are permutations of each other (each surviving Voice record,
cursor included, corresponds one-to-one). -/
theorem C6_mixing_order_independent :
    ∀ (rf : Nat) (l₁ l₂ : List Voice), List.Perm l₁ l₂ →
      (produce rf l₁).1 = (produce rf l₂).1 ∧
      List.Perm (produce rf l₁).2 (produce rf l₂).2 := by
  intro rf l₁ l₂ h
  exact ⟨produce_perm_fst rf h, produce_perm_snd rf h⟩

/-- Witness for C6: two concrete voices in both orders produce the same
buffer. -/
theorem C6_mixing_order_independent_witness :
    List.Perm [(⟨[1, 2, 3], 0, 1, 1⟩ : Voice), ⟨[4, 5], 0, 1, 1⟩]
      [(⟨[4, 5], 0, 1, 1⟩ : Voice), ⟨[1, 2, 3], 0, 1, 1⟩] ∧
    (produce 2 [(⟨[1, 2, 3], 0, 1, 1⟩ : Voice), ⟨[4, 5], 0, 1, 1⟩]).1 =
      (produce 2 [(⟨[4, 5], 0, 1, 1⟩ : Voice), ⟨[1, 2, 3], 0, 1, 1⟩]).1 :=
  ⟨List.Perm.swap (⟨[4, 5], 0, 1, 1⟩ : Voice) (⟨[1, 2, 3], 0, 1, 1⟩ : Voice) [],
    (C6_mixing_order_independent 2 _ _
      (List.Perm.swap (⟨[4, 5], 0, 1, 1⟩ : Voice) (⟨[1, 2, 3], 0, 1, 1⟩ : Voice) [])).1⟩

/-- Claim C7: every produce pass returns exactly
`requested_frames * channel_count` interleaved samples; a position every
live voice's take falls at or below is zero; an empty registry yields pure
silence; and in the spec's scenario — one voice on the 10-frame stereo
asset, three produce(4) calls — the third call returns the last 2 frames
(4 samples) of audio padded with 4 zeros, and the voice is gone. -/
theorem C7_buffer_length_and_silence :
    (∀ (rf : Nat) (l : List Voice), (produce rf l).1.length = rf * OUT_CHANNELS) ∧
    (∀ (rf : Nat) (l : List Voice) (i : Nat), (∀ v ∈ l, takeCount rf v ≤ i) →
      (produce rf l).1.getD i 0 = 0) ∧
    (∀ rf : Nat, (produce rf []).1 = List.replicate (rf * OUT_CHANNELS) 0) ∧
    ((produce 4 ((produce 4 ((produce 4 (enqueue_sound [] asset10 1)).2)).2)).1 =
        [17, 18, 19, 20, 0, 0, 0, 0] ∧
      (produce 4 ((produce 4 ((produce 4 (enqueue_sound [] asset10 1)).2)).2)).2 = []) := by
  refine ⟨fun rf l => produce_fst_length rf l, ?_, ?_, by decide, by decide⟩
  · intro rf l i h
    rw [produce_fst_getD]
    have hz : accValue rf l i = 0 := by
      apply List.sum_eq_zero
      intro x hx
      obtain ⟨v, hv, rfl⟩ := List.mem_map.mp hx
      exact contrib_of_take_le rf v i (h v hv)
    rw [hz, clip16_zero]
  · intro rf
    unfold produce
    rw [mixLoop_eq]
    simp only [List.foldl_nil, List.map_replicate]
    rw [clip16_zero]
    rfl

/-- Witness for C7: a voice over one sample with requested_frames 2 has
take 1 ≤ 3, so offset 3 of the output is silent. -/
theorem C7_buffer_length_and_silence_witness :
    (∀ v ∈ [(⟨[9], 0, 1, 0⟩ : Voice)], takeCount 2 v ≤ 3) ∧
    (produce 2 [(⟨[9], 0, 1, 0⟩ : Voice)]).1.getD 3 0 = 0 :=
  ⟨by decide, C7_buffer_length_and_silence.2.1 2 [⟨[9], 0, 1, 0⟩] 3 (by decide)⟩

/-- Claim C8 counterexample: `enqueue_sound` does not validate the gain —
called with gain -1 on the empty registry it inserts the voice with
`vol = -1` as-is (neither rejected: the registry is non-empty afterwards;
nor clamped: the stored gain is the negative value, not 0). -/
theorem C8_no_gain_validation_counterexample :
    enqueue_sound [] ⟨[7], 0⟩ (-1) = [(⟨[7], 0, -1, 0⟩ : Voice)] ∧
    ((-1 : ℚ) < 0) ∧ ((-1 : ℚ) ≠ 0) :=
  ⟨rfl, by decide, by decide⟩

/-- Claim C8 amended: `enqueue_sound` performs no gain validation — for
every gain, a negative one included, exactly one Voice carrying the given
gain unmodified (cursor 0) is appended to the registry. -/
theorem C8_gain_stored_unvalidated :
    ∀ (active : List Voice) (dsf : Sound) (g : ℚ), g < 0 →
      ({ samples := dsf.samples, pos := 0, vol := g, nframes := dsf.nframes } : Voice) ∈
        enqueue_sound active dsf g ∧
      (enqueue_sound active dsf g).length = active.length + 1 := by
  intro active dsf g _
  constructor
  · unfold enqueue_sound
    exact List.mem_append_right active (List.mem_singleton.mpr rfl)
  · unfold enqueue_sound
    simp

/-- Witness for C8 at gain -1. -/
theorem C8_gain_stored_unvalidated_witness :
    ((-1 : ℚ) < 0) ∧
    ((⟨[7], 0, -1, 0⟩ : Voice) ∈ enqueue_sound [] ⟨[7], 0⟩ (-1)) :=
  ⟨by decide, (C8_gain_stored_unvalidated [] ⟨[7], 0⟩ (-1) (by decide)).1⟩

theorem foldl_mix_nil_acc (rf : Nat) (l : List Voice) :
    l.foldl (fun a v => mixVoiceAcc rf v a) ([] : List Int) = [] := by
  apply List.length_eq_zero.mp
  rw [foldl_mix_length]
  rfl

theorem stepVoice_zero_frames (v : Voice) : stepVoice 0 v = v := by
  unfold stepVoice
  rw [takeCount_zero]
  rfl

/-- Claim C9: `produce 0` returns an empty buffer and mutates no cursor —
the surviving registry is literally the unfinished original voices,
each record (cursor included) unchanged.  (The source still runs its
removal sweep, so already-finished voices — possible only for zero-length
assets — are dropped, which touches no cursor.) -/
theorem C9_produce_zero_frames :
    ∀ l : List Voice,
      (produce 0 l).1 = [] ∧
      (produce 0 l).2 = l.filter fun v => decide (v.pos < v.samples.length) := by
  intro l
  constructor
  · unfold produce
    rw [mixLoop_eq]
    have h0 : List.replicate (wantCount 0) (0 : Int) = [] := rfl
    rw [h0, foldl_mix_nil_acc]
    rfl
  · rw [produce_snd]
    have hmap : l.map (stepVoice 0) = l := by
      rw [List.map_congr_left fun v _ => stepVoice_zero_frames v]
      exact List.map_id' l
    rw [hmap]
    rfl

/-- Claim C10: `produce` is deterministic — it is a pure function of the
registry contents, and two calls from registries holding the same multiset
of Voices (same samples, cursors, gains) return the identical output
buffer and leave successor registries holding the same multiset.  The
mixing core consults no randomness (the only use of randomness in the
source is the trigger dispatcher's choice of asset, outside the core). -/
theorem C10_produce_deterministic :
    ∀ (rf : Nat) (l₁ l₂ : List Voice),
      (l₁ : Multiset Voice) = (l₂ : Multiset Voice) →
      (produce rf l₁).1 = (produce rf l₂).1 ∧
      ((produce rf l₁).2 : Multiset Voice) = ((produce rf l₂).2 : Multiset Voice) := by
  intro rf l₁ l₂ h
  have hp := Multiset.coe_eq_coe.mp h
  exact ⟨produce_perm_fst rf hp, Multiset.coe_eq_coe.mpr (produce_perm_snd rf hp)⟩

/-- Witness for C10 on two registries holding the same two voices in
either order. -/
theorem C10_produce_deterministic_witness :
    (([(⟨[1, 2], 0, 1, 1⟩ : Voice), ⟨[3], 0, 1, 0⟩] : List Voice) : Multiset Voice) =
      (([(⟨[3], 0, 1, 0⟩ : Voice), ⟨[1, 2], 0, 1, 1⟩] : List Voice) : Multiset Voice) ∧
    (produce 1 [(⟨[1, 2], 0, 1, 1⟩ : Voice), ⟨[3], 0, 1, 0⟩]).1 =
      (produce 1 [(⟨[3], 0, 1, 0⟩ : Voice), ⟨[1, 2], 0, 1, 1⟩]).1 :=
  ⟨Multiset.coe_eq_coe.mpr (List.Perm.swap (⟨[3], 0, 1, 0⟩ : Voice)
      (⟨[1, 2], 0, 1, 1⟩ : Voice) []),
    (C10_produce_deterministic 1 _ _
      (Multiset.coe_eq_coe.mpr (List.Perm.swap (⟨[3], 0, 1, 0⟩ : Voice)
        (⟨[1, 2], 0, 1, 1⟩ : Voice) []))).1⟩
